import Mathlib

/-!
Shallow embedding of `src/src/index.ts` (Himenon/priority-queue): a binary-heap
priority queue with runtime-switchable min/max mode, snapshot iteration, and
destructive draining. Machine numbers (JS doubles used as priorities) are
modelled as `Int`; the claims' inputs use integer priorities only.
-/

namespace PQModel

/-- `QueueElement<T>`: value plus numeric priority. -/
structure QueueElement (T : Type) where
  value : T
  priority : Int
  deriving Repr, DecidableEq

/-- The comparison mode: the source stores a reference to one of the two static
comparators `#minCompare` / `#maxCompare`; we model that as a two-valued flag. -/
inductive HeapMode where
  | minHeap : HeapMode
  | maxHeap : HeapMode
  deriving Repr, DecidableEq

/-- `#minCompare` / `#maxCompare`: `a.priority - b.priority` resp.
`b.priority - a.priority`. -/
def compareFn {T : Type} (mode : HeapMode) (a b : QueueElement T) : Int :=
  match mode with
  | .minHeap => a.priority - b.priority
  | .maxHeap => b.priority - a.priority

/-- The `PriorityQueue<T>` state: the backing array `#heap` and the active
comparator `#compare` (as a mode flag). -/
structure PriorityQueue (T : Type) where
  heap : List (QueueElement T)
  mode : HeapMode
  deriving Repr, DecidableEq

/-- `new PriorityQueue(isMinHeap)`: empty heap, mode fixed by the flag. -/
def PriorityQueue.new (T : Type) (isMinHeap : Bool) : PriorityQueue T :=
  { heap := [], mode := if isMinHeap then .minHeap else .maxHeap }

/-- The loop of `#bubbleUp`: `element` was saved from slot `index`; while
`index > 0`, compare `element` with the parent; if `compare(element,parent) >= 0`
stop and write `element` at `index`, else copy the parent down into `index`
and continue from the parent slot.  (`heap[parentIndex]` is always in bounds
at the call sites; `getD` supplies a never-used fallback.) -/
def bubbleUpGo {T : Type} (mode : HeapMode) (heap : List (QueueElement T))
    (element : QueueElement T) (index : Nat) : List (QueueElement T) :=
  if 0 < index then
    let parentIndex := (index - 1) / 2
    let parent := heap.getD parentIndex element
    if 0 ≤ compareFn mode element parent then
      heap.set index element
    else
      bubbleUpGo mode (heap.set index parent) element parentIndex
  else
    heap.set index element
termination_by index
decreasing_by
  exact Nat.lt_of_le_of_lt (Nat.div_le_self _ _) (Nat.sub_lt ‹0 < index› Nat.one_pos)

/-- `#bubbleUp()`: start from the last slot with the element stored there. -/
def bubbleUp {T : Type} (mode : HeapMode) (heap : List (QueueElement T)) :
    List (QueueElement T) :=
  match heap.getLast? with
  | none => heap
  | some element => bubbleUpGo mode heap element (heap.length - 1)

/-- `enqueue(value, priority)`: push `{value, priority}` then `#bubbleUp()`. -/
def enqueue {T : Type} (q : PriorityQueue T) (value : T) (priority : Int) :
    PriorityQueue T :=
  { q with heap := bubbleUp q.mode (q.heap ++ [⟨value, priority⟩]) }

/-- One round of swap-target selection in the `#bubbleDown` loop: start from
`swapTargetIndex = index`, promote to the left child when it exists and
compares strictly below `heap[swapTargetIndex]`, then likewise for the right
child.  Note the faithful detail: the comparisons read `heap[swapTargetIndex]`
— the slot contents, which after the first move of the loop hold the promoted
child, not the `element` being sifted. -/
def swapTarget {T : Type} (mode : HeapMode) (heap : List (QueueElement T))
    (element : QueueElement T) (index : Nat) : Nat :=
  let length := heap.length
  let leftChildIndex := 2 * index + 1
  let rightChildIndex := 2 * index + 2
  let st1 :=
    if leftChildIndex < length ∧
        compareFn mode (heap.getD leftChildIndex element) (heap.getD index element) < 0 then
      leftChildIndex
    else index
  if rightChildIndex < length ∧
      compareFn mode (heap.getD rightChildIndex element) (heap.getD st1 element) < 0 then
    rightChildIndex
  else st1

theorem swapTarget_bounds {T : Type} (mode : HeapMode) (heap : List (QueueElement T))
    (element : QueueElement T) (index : Nat)
    (h : swapTarget mode heap element index ≠ index) :
    index < swapTarget mode heap element index ∧
      swapTarget mode heap element index < heap.length := by
  unfold swapTarget at h ⊢
  dsimp only at h ⊢
  split_ifs at h ⊢ <;> omega

/-- The `while (true)` loop of `#bubbleDown`: `element` is the entry being
sifted, `index` the current hole; stop and write `element` when the swap
target did not change, else copy the chosen child up and continue from its
slot. -/
def bubbleDownGo {T : Type} (mode : HeapMode) (heap : List (QueueElement T))
    (element : QueueElement T) (index : Nat) : List (QueueElement T) :=
  if h : swapTarget mode heap element index = index then
    heap.set index element
  else
    bubbleDownGo mode
      (heap.set index (heap.getD (swapTarget mode heap element index) element))
      element (swapTarget mode heap element index)
termination_by heap.length - index
decreasing_by
  simp only [List.length_set]
  have hb := swapTarget_bounds mode heap element index h
  omega

/-- `#bubbleDown(startIndex)`: guard `startIndex >= length`, save the element
at `startIndex`, then run the loop. -/
def bubbleDown {T : Type} (mode : HeapMode) (heap : List (QueueElement T))
    (startIndex : Nat) : List (QueueElement T) :=
  if h : startIndex < heap.length then
    bubbleDownGo mode heap (heap.get ⟨startIndex, h⟩) startIndex
  else
    heap

/-- `dequeue()`: empty ⇒ no value; else remember the root, pop the last entry,
and if entries remain put the popped entry at the root and sift it down. -/
def dequeue {T : Type} (q : PriorityQueue T) : Option T × PriorityQueue T :=
  match q.heap with
  | [] => (none, q)
  | top :: rest =>
    let last := (top :: rest).getLast (List.cons_ne_nil top rest)
    let popped := (top :: rest).dropLast
    if 0 < popped.length then
      (some top.value, { q with heap := bubbleDownGo q.mode (popped.set 0 last) last 0 })
    else
      (some top.value, { q with heap := popped })

/-- `peek()`: the root's value, if any. -/
def peek {T : Type} (q : PriorityQueue T) : Option T :=
  (q.heap.head?).map (·.value)

/-- `isEmpty()`. -/
def isEmpty {T : Type} (q : PriorityQueue T) : Bool :=
  q.heap.length = 0

/-- `size` getter. -/
def size {T : Type} (q : PriorityQueue T) : Nat :=
  q.heap.length

/-- The `for (let i = lastNonLeafIndex; i >= 0; i--)` loop of `#reheapify`,
counted down: `reheapifyGo mode heap (k+1)` sifts index `k` first.  The entry
point passes `heap.length / 2`, so the first index is `⌊n/2⌋ - 1` and the loop
is empty when `⌊n/2⌋ = 0`, matching the source's `-1` sentinel. -/
def reheapifyGo {T : Type} (mode : HeapMode) (heap : List (QueueElement T)) :
    Nat → List (QueueElement T)
  | 0 => heap
  | i + 1 => reheapifyGo mode (bubbleDown mode heap i) i

/-- `#reheapify()`. -/
def reheapify {T : Type} (q : PriorityQueue T) : PriorityQueue T :=
  { q with heap := reheapifyGo q.mode q.heap (q.heap.length / 2) }

/-- `setMinHeap()`: no-op when the comparator is already `#minCompare`. -/
def setMinHeap {T : Type} (q : PriorityQueue T) : PriorityQueue T :=
  if q.mode = HeapMode.minHeap then q
  else reheapify { q with mode := HeapMode.minHeap }

/-- `setMaxHeap()`: no-op when the comparator is already `#maxCompare`. -/
def setMaxHeap {T : Type} (q : PriorityQueue T) : PriorityQueue T :=
  if q.mode = HeapMode.maxHeap then q
  else reheapify { q with mode := HeapMode.maxHeap }

theorem length_bubbleDownGo {T : Type} (mode : HeapMode) (heap : List (QueueElement T))
    (element : QueueElement T) (index : Nat) :
    (bubbleDownGo mode heap element index).length = heap.length := by
  induction heap, element, index using bubbleDownGo.induct mode with
  | case1 heap element index h =>
    rw [bubbleDownGo]
    simp [h]
  | case2 heap element index h ih =>
    rw [bubbleDownGo]
    simp only [h, dite_false]
    rw [ih]
    exact List.length_set ..

theorem length_bubbleDown {T : Type} (mode : HeapMode) (heap : List (QueueElement T))
    (startIndex : Nat) :
    (bubbleDown mode heap startIndex).length = heap.length := by
  unfold bubbleDown
  split
  · exact length_bubbleDownGo ..
  · rfl

theorem length_bubbleUpGo {T : Type} (mode : HeapMode) (index : Nat) :
    ∀ (heap : List (QueueElement T)) (element : QueueElement T),
      (bubbleUpGo mode heap element index).length = heap.length := by
  induction index using Nat.strong_induction_on with
  | _ index ih =>
    intro heap element
    rw [bubbleUpGo]
    dsimp only
    split_ifs with h hc
    · exact List.length_set ..
    · rw [ih _ (Nat.lt_of_le_of_lt (Nat.div_le_self _ _) (Nat.sub_lt h Nat.one_pos))]
      exact List.length_set ..
    · exact List.length_set ..

theorem length_dequeue {T : Type} (q : PriorityQueue T) :
    ((dequeue q).2).heap.length = q.heap.length - 1 := by
  unfold dequeue
  match hq : q.heap with
  | [] => simp [hq]
  | top :: rest =>
    dsimp only
    split
    · simp [length_bubbleDownGo, List.length_set, List.length_dropLast]
    · simp [List.length_dropLast]

/-- `drain()`: repeatedly `dequeue()` from the live queue, collecting yielded
values, until `isEmpty()`; returns the yielded values and the final state. -/
def drain {T : Type} (q : PriorityQueue T) : List T × PriorityQueue T :=
  if q.heap.length = 0 then ([], q)
  else
    let r := dequeue q
    let rest := drain r.2
    (match r.1 with
     | some v => v :: rest.1
     | none => rest.1, rest.2)
termination_by q.heap.length
decreasing_by
  have := length_dequeue q
  omega

/-- `drainFast()`: stable-sort a copy of the backing array with the active
comparator (JS `Array.prototype.sort` is required to be stable and to order by
the comparator's sign; insertion sort on `compare(a,b) <= 0` realises exactly
that contract), clear the heap, and return the sorted values. -/
def drainFast {T : Type} (q : PriorityQueue T) : List T × PriorityQueue T :=
  let sorted := q.heap.insertionSort (fun a b => compareFn q.mode a b ≤ 0)
  (sorted.map (·.value), { q with heap := [] })

/-- `[Symbol.iterator]()`: clone the backing array and mode into a fresh
queue, then dequeue the clone to exhaustion, yielding each value.  (In the
pure model the clone is the literal copy `⟨q.heap, q.mode⟩`; the original `q`
is untouched by construction.) -/
def iterValues {T : Type} (q : PriorityQueue T) : List T :=
  (drain { heap := q.heap, mode := q.mode }).1

/-- One parent/child link check of the heap-order invariant
(`compare(heap[i], heap[c]) <= 0`), vacuously true out of bounds. -/
def childOk {T : Type} (mode : HeapMode) (heap : List (QueueElement T)) (i c : Nat) : Bool :=
  match heap[i]?, heap[c]? with
  | some x, some y => decide (compareFn mode x y ≤ 0)
  | _, _ => true

/-- The spec's heap-order invariant: every parent compares `≤ 0` against each
existing child at `2i+1` and `2i+2`. -/
def heapOkB {T : Type} (mode : HeapMode) (heap : List (QueueElement T)) : Bool :=
  (List.range heap.length).all fun i =>
    childOk mode heap i (2 * i + 1) && childOk mode heap i (2 * i + 2)

/-!
Fuel-based structural mirrors of the three recursive routines.  They are
proved pointwise equal to the primary definitions above and exist only so
that concrete runs can be evaluated inside the kernel (`decide`); the fuel
bounds are exactly the termination measures of the primary definitions.
-/

/-- Structural mirror of `bubbleUpGo`; `fuel ≥ index` makes it agree. -/
def bubbleUpGoF {T : Type} (mode : HeapMode) :
    Nat → List (QueueElement T) → QueueElement T → Nat → List (QueueElement T)
  | 0, heap, element, index => heap.set index element
  | fuel + 1, heap, element, index =>
    if 0 < index then
      let parentIndex := (index - 1) / 2
      let parent := heap.getD parentIndex element
      if 0 ≤ compareFn mode element parent then
        heap.set index element
      else
        bubbleUpGoF mode fuel (heap.set index parent) element parentIndex
    else
      heap.set index element

theorem bubbleUpGoF_eq {T : Type} (mode : HeapMode) :
    ∀ (fuel index : Nat), index ≤ fuel →
      ∀ (heap : List (QueueElement T)) (element : QueueElement T),
        bubbleUpGoF mode fuel heap element index = bubbleUpGo mode heap element index := by
  intro fuel
  induction fuel with
  | zero =>
    intro index hle heap element
    have h0 : index = 0 := Nat.le_zero.mp hle
    subst h0
    rw [bubbleUpGo, bubbleUpGoF]
    simp
  | succ fuel ih =>
    intro index hle heap element
    rw [bubbleUpGo, bubbleUpGoF]
    dsimp only
    split_ifs with h1 h2
    · rfl
    · exact ih _ (by omega) _ _
    · rfl

/-- Structural mirror of `bubbleDownGo`; `fuel ≥ heap.length - index` makes it
agree. -/
def bubbleDownGoF {T : Type} (mode : HeapMode) :
    Nat → List (QueueElement T) → QueueElement T → Nat → List (QueueElement T)
  | 0, heap, element, index => heap.set index element
  | fuel + 1, heap, element, index =>
    if swapTarget mode heap element index = index then
      heap.set index element
    else
      bubbleDownGoF mode fuel
        (heap.set index (heap.getD (swapTarget mode heap element index) element))
        element (swapTarget mode heap element index)

theorem bubbleDownGoF_eq {T : Type} (mode : HeapMode) :
    ∀ (fuel : Nat) (heap : List (QueueElement T)) (element : QueueElement T)
      (index : Nat), heap.length - index ≤ fuel →
      bubbleDownGoF mode fuel heap element index = bubbleDownGo mode heap element index := by
  intro fuel
  induction fuel with
  | zero =>
    intro heap element index hle
    rw [bubbleDownGo, bubbleDownGoF]
    split_ifs with h
    · rfl
    · exfalso
      have hb := swapTarget_bounds mode heap element index h
      omega
  | succ fuel ih =>
    intro heap element index hle
    rw [bubbleDownGo, bubbleDownGoF]
    split_ifs with h
    · rfl
    · have hb := swapTarget_bounds mode heap element index h
      apply ih
      simp only [List.length_set]
      omega

/-- Kernel-evaluable mirror of `bubbleUp`. -/
def bubbleUpF {T : Type} (mode : HeapMode) (heap : List (QueueElement T)) :
    List (QueueElement T) :=
  match heap.getLast? with
  | none => heap
  | some element => bubbleUpGoF mode (heap.length - 1) heap element (heap.length - 1)

theorem bubbleUpF_eq {T : Type} (mode : HeapMode) (heap : List (QueueElement T)) :
    bubbleUpF mode heap = bubbleUp mode heap := by
  unfold bubbleUp bubbleUpF
  match heap.getLast? with
  | none => rfl
  | some element => exact bubbleUpGoF_eq mode _ _ (Nat.le_refl _) _ _

/-- Kernel-evaluable mirror of `enqueue`. -/
def enqueueF {T : Type} (q : PriorityQueue T) (value : T) (priority : Int) :
    PriorityQueue T :=
  { q with heap := bubbleUpF q.mode (q.heap ++ [⟨value, priority⟩]) }

theorem enqueueF_eq {T : Type} (q : PriorityQueue T) (value : T) (priority : Int) :
    enqueueF q value priority = enqueue q value priority := by
  unfold enqueue enqueueF
  rw [bubbleUpF_eq]

/-- Kernel-evaluable mirror of `bubbleDown`. -/
def bubbleDownF {T : Type} (mode : HeapMode) (heap : List (QueueElement T))
    (startIndex : Nat) : List (QueueElement T) :=
  if h : startIndex < heap.length then
    bubbleDownGoF mode heap.length heap (heap.get ⟨startIndex, h⟩) startIndex
  else
    heap

theorem bubbleDownF_eq {T : Type} (mode : HeapMode) (heap : List (QueueElement T))
    (startIndex : Nat) :
    bubbleDownF mode heap startIndex = bubbleDown mode heap startIndex := by
  unfold bubbleDown bubbleDownF
  split_ifs with h
  · exact bubbleDownGoF_eq mode _ _ _ _ (Nat.sub_le _ _)
  · rfl

/-- Kernel-evaluable mirror of `dequeue`. -/
def dequeueF {T : Type} (q : PriorityQueue T) : Option T × PriorityQueue T :=
  match q.heap with
  | [] => (none, q)
  | top :: rest =>
    let last := (top :: rest).getLast (List.cons_ne_nil top rest)
    let popped := (top :: rest).dropLast
    if 0 < popped.length then
      (some top.value,
        { q with heap := bubbleDownGoF q.mode popped.length (popped.set 0 last) last 0 })
    else
      (some top.value, { q with heap := popped })

theorem dequeueF_eq {T : Type} (q : PriorityQueue T) : dequeueF q = dequeue q := by
  unfold dequeue dequeueF
  match q.heap with
  | [] => rfl
  | top :: rest =>
    dsimp only
    split_ifs with h
    · rw [bubbleDownGoF_eq]
      simp only [List.length_set]
      omega
    · rfl

/-- Structural mirror of `drain`; `fuel ≥ q.heap.length` makes it agree. -/
def drainGoF {T : Type} : Nat → PriorityQueue T → List T × PriorityQueue T
  | 0, q => ([], q)
  | fuel + 1, q =>
    if q.heap.length = 0 then ([], q)
    else
      let r := dequeueF q
      let rest := drainGoF fuel r.2
      (match r.1 with
       | some v => v :: rest.1
       | none => rest.1, rest.2)

theorem drainGoF_eq {T : Type} :
    ∀ (fuel : Nat) (q : PriorityQueue T), q.heap.length ≤ fuel →
      drainGoF fuel q = drain q := by
  intro fuel
  induction fuel with
  | zero =>
    intro q hle
    rw [drain, drainGoF]
    simp [Nat.le_zero.mp hle]
  | succ fuel ih =>
    intro q hle
    rw [drain, drainGoF]
    dsimp only
    split_ifs with h
    · rfl
    · have hd := length_dequeue q
      rw [dequeueF_eq, ih _ (by omega)]

/-- Kernel-evaluable mirror of `reheapifyGo`. -/
def reheapifyGoF {T : Type} (mode : HeapMode) (heap : List (QueueElement T)) :
    Nat → List (QueueElement T)
  | 0 => heap
  | i + 1 => reheapifyGoF mode (bubbleDownF mode heap i) i

theorem reheapifyGoF_eq {T : Type} (mode : HeapMode) :
    ∀ (n : Nat) (heap : List (QueueElement T)),
      reheapifyGoF mode heap n = reheapifyGo mode heap n := by
  intro n
  induction n with
  | zero => intro heap; rfl
  | succ n ih =>
    intro heap
    unfold reheapifyGo reheapifyGoF
    rw [bubbleDownF_eq, ih]

/-- Kernel-evaluable mirror of `reheapify`. -/
def reheapifyF {T : Type} (q : PriorityQueue T) : PriorityQueue T :=
  { q with heap := reheapifyGoF q.mode q.heap (q.heap.length / 2) }

theorem reheapifyF_eq {T : Type} (q : PriorityQueue T) : reheapifyF q = reheapify q := by
  unfold reheapify reheapifyF
  rw [reheapifyGoF_eq]

/-- Kernel-evaluable mirror of `setMinHeap`. -/
def setMinHeapF {T : Type} (q : PriorityQueue T) : PriorityQueue T :=
  if q.mode = HeapMode.minHeap then q
  else reheapifyF { q with mode := HeapMode.minHeap }

theorem setMinHeapF_eq {T : Type} (q : PriorityQueue T) : setMinHeapF q = setMinHeap q := by
  unfold setMinHeap setMinHeapF
  split_ifs
  · rfl
  · rw [reheapifyF_eq]

/-- Kernel-evaluable mirror of `setMaxHeap`. -/
def setMaxHeapF {T : Type} (q : PriorityQueue T) : PriorityQueue T :=
  if q.mode = HeapMode.maxHeap then q
  else reheapifyF { q with mode := HeapMode.maxHeap }

theorem setMaxHeapF_eq {T : Type} (q : PriorityQueue T) : setMaxHeapF q = setMaxHeap q := by
  unfold setMaxHeap setMaxHeapF
  split_ifs
  · rfl
  · rw [reheapifyF_eq]

/-- Kernel-evaluable mirror of `drain`. -/
def drainF {T : Type} (q : PriorityQueue T) : List T × PriorityQueue T :=
  drainGoF q.heap.length q

theorem drainF_eq {T : Type} (q : PriorityQueue T) : drainF q = drain q :=
  drainGoF_eq _ _ (Nat.le_refl _)

/-- Kernel-evaluable mirror of `iterValues`. -/
def iterValuesF {T : Type} (q : PriorityQueue T) : List T :=
  (drainF { heap := q.heap, mode := q.mode }).1

theorem iterValuesF_eq {T : Type} (q : PriorityQueue T) : iterValuesF q = iterValues q := by
  unfold iterValues iterValuesF
  rw [drainF_eq]

/-- Enqueue a whole list of `(value, priority)` pairs in order. -/
def enqueueAll {T : Type} (q : PriorityQueue T) (xs : List (T × Int)) : PriorityQueue T :=
  xs.foldl (fun acc p => enqueue acc p.1 p.2) q

/-- Kernel-evaluable mirror of `enqueueAll`. -/
def enqueueAllF {T : Type} (q : PriorityQueue T) (xs : List (T × Int)) : PriorityQueue T :=
  xs.foldl (fun acc p => enqueueF acc p.1 p.2) q

theorem enqueueAllF_eq {T : Type} (xs : List (T × Int)) :
    ∀ (q : PriorityQueue T), enqueueAllF q xs = enqueueAll q xs := by
  induction xs with
  | nil => intro q; rfl
  | cons x xs ih =>
    intro q
    show enqueueAllF (enqueueF q x.1 x.2) xs = enqueueAll (enqueue q x.1 x.2) xs
    rw [enqueueF_eq, ih]

/-- `true` iff the list of priorities is in non-decreasing order. -/
def nondecreasing : List Int → Bool
  | [] => true
  | [_] => true
  | a :: b :: t => decide (a ≤ b) && nondecreasing (b :: t)

/-!
Permutation facts: the sift routines only move entries around, so every
public operation that reorders the backing array preserves its multiset of
entries (claim C9's content), bug or no bug.
-/

theorem cons_getD_set_perm {α : Type} :
    ∀ (l : List α) (i : Nat) (x d : α), i < l.length →
      List.Perm (l.getD i d :: l.set i x) (x :: l) := by
  intro l
  induction l with
  | nil => intro i x d h; simp at h
  | cons a t ih =>
    intro i x d h
    match i with
    | 0 =>
      simpa using List.Perm.swap x a t
    | i + 1 =>
      have ht : i < t.length := by simpa using h
      have h1 : List.Perm (t.getD i d :: a :: t.set i x) (a :: t.getD i d :: t.set i x) :=
        List.Perm.swap a (t.getD i d) (t.set i x)
      have h2 : List.Perm (a :: t.getD i d :: t.set i x) (a :: x :: t) :=
        (ih i x d ht).cons a
      have h3 : List.Perm (a :: x :: t) (x :: a :: t) := List.Perm.swap x a t
      simpa using (h1.trans (h2.trans h3))

theorem set_set_perm {α : Type} (l : List α) (i j : Nat) (x d : α)
    (hi : i < l.length) (hj : j < l.length) (hij : i ≠ j) :
    List.Perm ((l.set i (l.getD j d)).set j x) (l.set i x) := by
  have hA0 : (l.set i (l.getD j d)).getD j d = l.getD j d := by
    rw [List.getD_eq_getElem?_getD, List.getElem?_set_ne hij, ← List.getD_eq_getElem?_getD]
  have A := cons_getD_set_perm (l.set i (l.getD j d)) j x d (by simpa using hj)
  rw [hA0] at A
  have B := cons_getD_set_perm l i (l.getD j d) d hi
  have C := cons_getD_set_perm l i x d hi
  have big :
      List.Perm (l.getD j d :: l.getD i d :: l.set i x)
        (l.getD j d :: l.getD i d :: (l.set i (l.getD j d)).set j x) :=
    (C.cons (l.getD j d)).trans
      ((List.Perm.swap x (l.getD j d) l).trans
        (((B.symm).cons x).trans
          ((List.Perm.swap (l.getD i d) x (l.set i (l.getD j d))).trans
            (((A.symm).cons (l.getD i d)).trans
              (List.Perm.swap (l.getD j d) (l.getD i d) ((l.set i (l.getD j d)).set j x))))))
  exact (big.cons_inv.cons_inv).symm

theorem bubbleDownGo_perm {T : Type} (mode : HeapMode) :
    ∀ (heap : List (QueueElement T)) (element : QueueElement T) (index : Nat),
      index < heap.length →
      List.Perm (bubbleDownGo mode heap element index) (heap.set index element) := by
  intro heap element index
  induction heap, element, index using bubbleDownGo.induct mode with
  | case1 heap element index h =>
    intro hidx
    rw [bubbleDownGo]
    simp [h]
  | case2 heap element index h ih =>
    intro hidx
    have hb := swapTarget_bounds mode heap element index h
    rw [bubbleDownGo]
    simp only [h, dite_false]
    refine (ih (by simpa using hb.2)).trans ?_
    exact set_set_perm heap index (swapTarget mode heap element index) element element
      hidx hb.2 (by omega)

theorem set_get_self {α : Type} :
    ∀ (l : List α) (i : Nat) (h : i < l.length), l.set i (l.get ⟨i, h⟩) = l := by
  intro l
  induction l with
  | nil => intro i h; simp at h
  | cons a t ih =>
    intro i h
    match i with
    | 0 => rfl
    | i + 1 =>
      have ht : i < t.length := by simpa using h
      simpa using ih i ht

theorem bubbleDown_perm {T : Type} (mode : HeapMode) (heap : List (QueueElement T))
    (startIndex : Nat) :
    List.Perm (bubbleDown mode heap startIndex) heap := by
  unfold bubbleDown
  split
  · refine (bubbleDownGo_perm mode heap _ startIndex ‹_›).trans ?_
    rw [set_get_self]
  · exact List.Perm.refl heap

theorem reheapifyGo_perm {T : Type} (mode : HeapMode) :
    ∀ (n : Nat) (heap : List (QueueElement T)),
      List.Perm (reheapifyGo mode heap n) heap := by
  intro n
  induction n with
  | zero => intro heap; exact List.Perm.refl heap
  | succ n ih =>
    intro heap
    exact (ih (bubbleDown mode heap n)).trans (bubbleDown_perm mode heap n)

theorem reheapify_heap_perm {T : Type} (q : PriorityQueue T) :
    List.Perm (reheapify q).heap q.heap :=
  reheapifyGo_perm q.mode _ q.heap

theorem setMinHeap_heap_perm {T : Type} (q : PriorityQueue T) :
    List.Perm (setMinHeap q).heap q.heap := by
  unfold setMinHeap
  split
  · exact List.Perm.refl _
  · exact reheapify_heap_perm _

theorem setMaxHeap_heap_perm {T : Type} (q : PriorityQueue T) :
    List.Perm (setMaxHeap q).heap q.heap := by
  unfold setMaxHeap
  split
  · exact List.Perm.refl _
  · exact reheapify_heap_perm _

/-!
Bounds-checked instrumentation (claim C10): each unguarded backing-array
access of the source is replaced by an `Option`-returning read/write that
fails out of bounds; recursion carries explicit fuel that fails when
exhausted.  Proving `opC … = some (op …)` certifies that no access of the
real operation ever touches a non-existent slot (and that the loops stop
within their measures).
-/

/-- Bounds-checked array write (`heap[i] = a`). -/
def setC {α : Type} (l : List α) (i : Nat) (a : α) : Option (List α) :=
  if i < l.length then some (l.set i a) else none

/-- Bounds-checked `#bubbleUp` loop: the parent read `heap[parentIndex]` and
the writes are checked. -/
def bubbleUpGoC {T : Type} (mode : HeapMode) (heap : List (QueueElement T))
    (element : QueueElement T) (index : Nat) : Option (List (QueueElement T)) :=
  if h : 0 < index then
    match heap[(index - 1) / 2]? with
    | none => none
    | some parent =>
      if 0 ≤ compareFn mode element parent then setC heap index element
      else
        match setC heap index parent with
        | none => none
        | some heap2 => bubbleUpGoC mode heap2 element ((index - 1) / 2)
  else setC heap index element
termination_by index
decreasing_by
  exact Nat.lt_of_le_of_lt (Nat.div_le_self _ _) (Nat.sub_lt h Nat.one_pos)

theorem bubbleUpGoC_eq {T : Type} (mode : HeapMode) :
    ∀ (index : Nat) (heap : List (QueueElement T)) (element : QueueElement T),
      index < heap.length →
      bubbleUpGoC mode heap element index = some (bubbleUpGo mode heap element index) := by
  intro index
  induction index using Nat.strong_induction_on with
  | _ index ih =>
    intro heap element hidx
    rw [bubbleUpGo, bubbleUpGoC]
    dsimp only
    split_ifs with h hc
    · have hp : (index - 1) / 2 < heap.length :=
        Nat.lt_of_le_of_lt (Nat.le_trans (Nat.div_le_self _ _) (Nat.sub_le _ _)) hidx
      rw [List.getElem?_eq_getElem hp]
      dsimp only
      rw [if_pos ?side, setC, if_pos hidx]
      case side =>
        rwa [List.getD_eq_getElem?_getD, List.getElem?_eq_getElem hp] at hc
    · have hp : (index - 1) / 2 < heap.length :=
        Nat.lt_of_le_of_lt (Nat.le_trans (Nat.div_le_self _ _) (Nat.sub_le _ _)) hidx
      rw [List.getElem?_eq_getElem hp]
      dsimp only
      rw [if_neg ?sideb, setC, if_pos hidx]
      case sideb =>
        rwa [List.getD_eq_getElem?_getD, List.getElem?_eq_getElem hp] at hc
      dsimp only
      rw [List.getD_eq_getElem?_getD, List.getElem?_eq_getElem hp]
      exact ih _ (Nat.lt_of_le_of_lt (Nat.div_le_self _ _) (Nat.sub_lt h Nat.one_pos)) _ _
        (by simpa using hp)
    · rw [setC, if_pos hidx]

/-- Bounds-checked swap-target selection: the unguarded reads of
`heap[swapTargetIndex]` (first at `index`, then possibly at the left child)
are checked; the child probes themselves sit behind `< length` guards exactly
as in the source. -/
def swapTargetC {T : Type} (mode : HeapMode) (heap : List (QueueElement T))
    (element : QueueElement T) (index : Nat) : Option Nat :=
  match heap[index]? with
  | none => none
  | some cur0 =>
    let st1 :=
      if 2 * index + 1 < heap.length ∧
          compareFn mode (heap.getD (2 * index + 1) element) cur0 < 0 then
        2 * index + 1
      else index
    match heap[st1]? with
    | none => none
    | some cur1 =>
      some
        (if 2 * index + 2 < heap.length ∧
            compareFn mode (heap.getD (2 * index + 2) element) cur1 < 0 then
          2 * index + 2
        else st1)

theorem getD_of_lt {α : Type} (l : List α) (i : Nat) (d : α) (h : i < l.length) :
    l.getD i d = l[i] := by
  rw [List.getD_eq_getElem?_getD, List.getElem?_eq_getElem h]
  rfl

theorem swapTargetC_eq {T : Type} (mode : HeapMode) (heap : List (QueueElement T))
    (element : QueueElement T) (index : Nat) (hidx : index < heap.length) :
    swapTargetC mode heap element index = some (swapTarget mode heap element index) := by
  unfold swapTarget swapTargetC
  dsimp only
  rw [List.getElem?_eq_getElem hidx]
  dsimp only
  rw [← getD_of_lt heap index element hidx]
  by_cases h1 : 2 * index + 1 < heap.length ∧
      compareFn mode (heap.getD (2 * index + 1) element) (heap.getD index element) < 0
  · simp only [if_pos h1]
    rw [List.getElem?_eq_getElem h1.1]
    dsimp only
    rw [← getD_of_lt heap (2 * index + 1) element h1.1]
  · simp only [if_neg h1]
    rw [List.getElem?_eq_getElem hidx]
    dsimp only
    rw [← getD_of_lt heap index element hidx]

/-- Bounds-checked, fueled `#bubbleDown` loop. -/
def bubbleDownGoC {T : Type} (mode : HeapMode) :
    Nat → List (QueueElement T) → QueueElement T → Nat → Option (List (QueueElement T))
  | 0, _, _, _ => none
  | fuel + 1, heap, element, index =>
    match swapTargetC mode heap element index with
    | none => none
    | some st =>
      if st = index then setC heap index element
      else
        match heap[st]? with
        | none => none
        | some child =>
          match setC heap index child with
          | none => none
          | some heap2 => bubbleDownGoC mode fuel heap2 element st

theorem bubbleDownGoC_eq {T : Type} (mode : HeapMode) :
    ∀ (fuel : Nat) (heap : List (QueueElement T)) (element : QueueElement T)
      (index : Nat), index < heap.length → heap.length - index ≤ fuel →
      bubbleDownGoC mode fuel heap element index = some (bubbleDownGo mode heap element index) := by
  intro fuel
  induction fuel with
  | zero =>
    intro heap element index hidx hle
    omega
  | succ fuel ih =>
    intro heap element index hidx hle
    rw [bubbleDownGo, bubbleDownGoC, swapTargetC_eq mode heap element index hidx]
    dsimp only
    split_ifs with h
    · rw [setC, if_pos hidx]
    · have hb := swapTarget_bounds mode heap element index h
      rw [List.getElem?_eq_getElem hb.2]
      dsimp only
      rw [setC, if_pos hidx]
      dsimp only
      rw [show heap.getD (swapTarget mode heap element index) element
            = heap[swapTarget mode heap element index] by
        rw [List.getD_eq_getElem?_getD, List.getElem?_eq_getElem hb.2]; rfl]
      exact ih _ _ _ (by simpa using hb.2) (by simp only [List.length_set]; omega)

/-- Bounds-checked `#bubbleDown` entry: mirrors the `startIndex >= length`
guard and the checked read of `heap[startIndex]`. -/
def bubbleDownC {T : Type} (mode : HeapMode) (heap : List (QueueElement T))
    (startIndex : Nat) : Option (List (QueueElement T)) :=
  if startIndex < heap.length then
    match heap[startIndex]? with
    | none => none
    | some element => bubbleDownGoC mode heap.length heap element startIndex
  else some heap

theorem bubbleDownC_eq {T : Type} (mode : HeapMode) (heap : List (QueueElement T))
    (startIndex : Nat) :
    bubbleDownC mode heap startIndex = some (bubbleDown mode heap startIndex) := by
  unfold bubbleDown bubbleDownC
  split_ifs with h
  · rw [List.getElem?_eq_getElem h]
    dsimp only
    rw [bubbleDownGoC_eq mode heap.length heap _ startIndex h (Nat.sub_le _ _)]
    rfl
  · rfl

/-- Bounds-checked `enqueue`: push, then checked sift-up from the last slot
(which also checks the initial `heap[heap.length - 1]` read). -/
def enqueueC {T : Type} (q : PriorityQueue T) (value : T) (priority : Int) :
    Option (PriorityQueue T) :=
  match hq : q.heap ++ [⟨value, priority⟩] with
  | [] => none
  | top :: rest =>
    match (top :: rest)[(top :: rest).length - 1]? with
    | none => none
    | some element =>
      (bubbleUpGoC q.mode (top :: rest) element ((top :: rest).length - 1)).map
        fun h2 => { q with heap := h2 }

theorem enqueueC_eq {T : Type} (q : PriorityQueue T) (value : T) (priority : Int) :
    enqueueC q value priority = some (enqueue q value priority) := by
  unfold enqueue enqueueC bubbleUp
  match hq : q.heap ++ [(⟨value, priority⟩ : QueueElement T)] with
  | [] => exact absurd hq (by simp)
  | top :: rest =>
    have hlen : (top :: rest).length - 1 < (top :: rest).length := by simp
    dsimp only
    rw [List.getElem?_eq_getElem hlen]
    dsimp only
    rw [bubbleUpGoC_eq q.mode _ _ _ hlen]
    have hlast : (top :: rest).getLast? = some ((top :: rest)[(top :: rest).length - 1]) := by
      rw [List.getLast?_eq_getElem?, List.getElem?_eq_getElem hlen]
    rw [hlast]
    rfl

/-- Bounds-checked `dequeue`: the root read is behind the emptiness guard, the
`heap[0] = last` write and the sift-down are checked. -/
def dequeueC {T : Type} (q : PriorityQueue T) : Option (Option T × PriorityQueue T) :=
  match q.heap with
  | [] => some (none, q)
  | top :: rest =>
    let last := (top :: rest).getLast (List.cons_ne_nil top rest)
    let popped := (top :: rest).dropLast
    if 0 < popped.length then
      match setC popped 0 last with
      | none => none
      | some h0 =>
        (bubbleDownGoC q.mode popped.length h0 last 0).map
          fun h2 => (some top.value, { q with heap := h2 })
    else some (some top.value, { q with heap := popped })

theorem dequeueC_eq {T : Type} (q : PriorityQueue T) : dequeueC q = some (dequeue q) := by
  unfold dequeue dequeueC
  match q.heap with
  | [] => rfl
  | top :: rest =>
    dsimp only
    split_ifs with h
    · rw [setC, if_pos h]
      dsimp only
      rw [bubbleDownGoC_eq q.mode _ _ _ 0 (by simpa using h)
        (by simp only [List.length_set]; omega)]
      rfl
    · rfl

/-- Bounds-checked `#reheapify` loop. -/
def reheapifyGoC {T : Type} (mode : HeapMode) (heap : List (QueueElement T)) :
    Nat → Option (List (QueueElement T))
  | 0 => some heap
  | i + 1 =>
    match bubbleDownC mode heap i with
    | none => none
    | some heap2 => reheapifyGoC mode heap2 i

theorem reheapifyGoC_eq {T : Type} (mode : HeapMode) :
    ∀ (n : Nat) (heap : List (QueueElement T)),
      reheapifyGoC mode heap n = some (reheapifyGo mode heap n) := by
  intro n
  induction n with
  | zero => intro heap; rfl
  | succ n ih =>
    intro heap
    rw [reheapifyGo, reheapifyGoC, bubbleDownC_eq]
    exact ih _

/-- Bounds-checked `setMinHeap`. -/
def setMinHeapC {T : Type} (q : PriorityQueue T) : Option (PriorityQueue T) :=
  if q.mode = HeapMode.minHeap then some q
  else
    (reheapifyGoC HeapMode.minHeap q.heap (q.heap.length / 2)).map
      fun h2 => { heap := h2, mode := HeapMode.minHeap }

theorem setMinHeapC_eq {T : Type} (q : PriorityQueue T) :
    setMinHeapC q = some (setMinHeap q) := by
  unfold setMinHeap setMinHeapC reheapify
  split_ifs with h
  · rfl
  · rw [reheapifyGoC_eq]
    rfl

/-- Bounds-checked `setMaxHeap`. -/
def setMaxHeapC {T : Type} (q : PriorityQueue T) : Option (PriorityQueue T) :=
  if q.mode = HeapMode.maxHeap then some q
  else
    (reheapifyGoC HeapMode.maxHeap q.heap (q.heap.length / 2)).map
      fun h2 => { heap := h2, mode := HeapMode.maxHeap }

theorem setMaxHeapC_eq {T : Type} (q : PriorityQueue T) :
    setMaxHeapC q = some (setMaxHeap q) := by
  unfold setMaxHeap setMaxHeapC reheapify
  split_ifs with h
  · rfl
  · rw [reheapifyGoC_eq]
    rfl

/-- The index at which the `#bubbleDown` loop stops and writes `element`
back ((the final value of `index` in the source loop). -/
def bubbleDownRest {T : Type} (mode : HeapMode) (heap : List (QueueElement T))
    (element : QueueElement T) (index : Nat) : Nat :=
  if h : swapTarget mode heap element index = index then
    index
  else
    bubbleDownRest mode
      (heap.set index (heap.getD (swapTarget mode heap element index) element))
      element (swapTarget mode heap element index)
termination_by heap.length - index
decreasing_by
  simp only [List.length_set]
  have hb := swapTarget_bounds mode heap element index h
  omega

/-- Fueled mirror of `bubbleDownRest`. -/
def bubbleDownRestF {T : Type} (mode : HeapMode) :
    Nat → List (QueueElement T) → QueueElement T → Nat → Nat
  | 0, _, _, index => index
  | fuel + 1, heap, element, index =>
    if swapTarget mode heap element index = index then
      index
    else
      bubbleDownRestF mode fuel
        (heap.set index (heap.getD (swapTarget mode heap element index) element))
        element (swapTarget mode heap element index)

theorem bubbleDownRestF_eq {T : Type} (mode : HeapMode) :
    ∀ (fuel : Nat) (heap : List (QueueElement T)) (element : QueueElement T)
      (index : Nat), heap.length - index ≤ fuel →
      bubbleDownRestF mode fuel heap element index = bubbleDownRest mode heap element index := by
  intro fuel
  induction fuel with
  | zero =>
    intro heap element index hle
    rw [bubbleDownRest, bubbleDownRestF]
    split_ifs with h
    · rfl
    · exfalso
      have hb := swapTarget_bounds mode heap element index h
      omega
  | succ fuel ih =>
    intro heap element index hle
    rw [bubbleDownRest, bubbleDownRestF]
    split_ifs with h
    · rfl
    · have hb := swapTarget_bounds mode heap element index h
      apply ih
      simp only [List.length_set]
      omega

theorem mode_reheapify {T : Type} (q : PriorityQueue T) : (reheapify q).mode = q.mode :=
  rfl

theorem mode_setMinHeap {T : Type} (q : PriorityQueue T) :
    (setMinHeap q).mode = HeapMode.minHeap := by
  unfold setMinHeap
  split_ifs with h
  · exact h
  · rfl

theorem mode_setMaxHeap {T : Type} (q : PriorityQueue T) :
    (setMaxHeap q).mode = HeapMode.maxHeap := by
  unfold setMaxHeap
  split_ifs with h
  · exact h
  · rfl

/-!
Claim theorems.
-/

/-- C1: the round-trip claim fails on the code.  Enqueueing the six pairs
`(i, i)` for `i = 0, 1, 3, 2, 4, 5` into a fresh min-mode queue and fully
consuming `drain()` yields all six values exactly once and leaves the queue
empty, but the values come out as `[0, 1, 3, 2, 4, 5]` — `3` before `2`, NOT
in non-decreasing priority order (each value here equals its priority). -/
theorem C1_drain_roundTrip_failing :
    (drain (enqueueAll (PriorityQueue.new Int true)
        [(0, 0), (1, 1), (3, 3), (2, 2), (4, 4), (5, 5)])).1 = [0, 1, 3, 2, 4, 5] ∧
    nondecreasing
      (drain (enqueueAll (PriorityQueue.new Int true)
        [(0, 0), (1, 1), (3, 3), (2, 2), (4, 4), (5, 5)])).1 = false ∧
    (drain (enqueueAll (PriorityQueue.new Int true)
        [(0, 0), (1, 1), (3, 3), (2, 2), (4, 4), (5, 5)])).2.heap = [] := by
  simp only [← enqueueAllF_eq, ← drainF_eq]
  decide

/-- C2: the heap-order invariant does NOT hold after every public operation.
After five enqueues with priorities `0, 1, 2, 3, 4` (min mode) followed by one
`dequeue()`, the backing array is `[1, 4, 2, 3]` (by priority): the parent at
index 1 (priority 4) is worse than its child at index 3 (priority 3). -/
theorem C2_invariant_after_dequeue_failing :
    ((dequeue (enqueueAll (PriorityQueue.new Int true)
        [(0, 0), (1, 1), (2, 2), (3, 3), (4, 4)])).2).heap.map (fun e => e.priority)
      = [1, 4, 2, 3] ∧
    heapOkB HeapMode.minHeap
      ((dequeue (enqueueAll (PriorityQueue.new Int true)
        [(0, 0), (1, 1), (2, 2), (3, 3), (4, 4)])).2).heap = false := by
  simp only [← enqueueAllF_eq, ← dequeueF_eq]
  decide

/-- C3: `drainFast()` is NOT output-equivalent to fully consuming `drain()`.
On the same six entries (distinct priorities, so tie order is irrelevant)
`drain()` yields `[10, 11, 13, 12, 14, 15]` while `drainFast()` yields the
correctly sorted `[10, 11, 12, 13, 14, 15]`; both do leave the queue empty. -/
theorem C3_drainFast_equivalence_failing :
    (drain (enqueueAll (PriorityQueue.new Int true)
        [(10, 0), (11, 1), (13, 3), (12, 2), (14, 4), (15, 5)])).1
      = [10, 11, 13, 12, 14, 15] ∧
    (drainFast (enqueueAll (PriorityQueue.new Int true)
        [(10, 0), (11, 1), (13, 3), (12, 2), (14, 4), (15, 5)])).1
      = [10, 11, 12, 13, 14, 15] ∧
    (drain (enqueueAll (PriorityQueue.new Int true)
        [(10, 0), (11, 1), (13, 3), (12, 2), (14, 4), (15, 5)])).1
      ≠ (drainFast (enqueueAll (PriorityQueue.new Int true)
        [(10, 0), (11, 1), (13, 3), (12, 2), (14, 4), (15, 5)])).1 ∧
    (drain (enqueueAll (PriorityQueue.new Int true)
        [(10, 0), (11, 1), (13, 3), (12, 2), (14, 4), (15, 5)])).2.heap = [] ∧
    (drainFast (enqueueAll (PriorityQueue.new Int true)
        [(10, 0), (11, 1), (13, 3), (12, 2), (14, 4), (15, 5)])).2.heap = [] := by
  simp only [← enqueueAllF_eq, ← drainF_eq]
  decide

/-- C4: after a mode switch the heap-order invariant does NOT always hold
under the new mode.  Enqueueing priorities `0, 1, 2, 3` in min mode and then
calling `setMaxHeap()` leaves the backing array `[3, 0, 2, 1]` (by priority):
the parent at index 1 (priority 0) is worse under max mode than its child at
index 3 (priority 1).  The spec's small scripted scenario does pass (its
heaps are too small to expose the sift-down defect): dequeue yields `"b"`,
and after the switch and the two further enqueues the drain order is
`"c", "d", "a"`. -/
theorem C4_reheapify_on_switch_failing :
    (setMaxHeap (enqueueAll (PriorityQueue.new Int true)
        [(0, 0), (1, 1), (2, 2), (3, 3)])).heap.map (fun e => e.priority) = [3, 0, 2, 1] ∧
    heapOkB HeapMode.maxHeap
      (setMaxHeap (enqueueAll (PriorityQueue.new Int true)
        [(0, 0), (1, 1), (2, 2), (3, 3)])).heap = false ∧
    (dequeue (enqueueAll (PriorityQueue.new String true) [("a", 2), ("b", 1)])).1
      = some "b" ∧
    (drain (enqueueAll
        (setMaxHeap (dequeue (enqueueAll (PriorityQueue.new String true)
          [("a", 2), ("b", 1)])).2)
        [("c", 5), ("d", 3)])).1 = ["c", "d", "a"] := by
  simp only [← enqueueAllF_eq, ← dequeueF_eq, ← setMaxHeapF_eq, ← drainF_eq]
  decide

/-- C5: same-mode setters are no-ops and idempotent: calling `setMinHeap`
(resp. `setMaxHeap`) on a queue already in min (resp. max) mode returns the
state unchanged (same backing layout, same size), and a second consecutive
call to the same setter changes nothing, so the subsequent drain order is
identical. -/
theorem C5_mode_setter_idempotent {T : Type} (heap0 : List (QueueElement T))
    (q : PriorityQueue T) :
    setMinHeap { heap := heap0, mode := HeapMode.minHeap }
        = { heap := heap0, mode := HeapMode.minHeap } ∧
    setMaxHeap { heap := heap0, mode := HeapMode.maxHeap }
        = { heap := heap0, mode := HeapMode.maxHeap } ∧
    setMinHeap (setMinHeap q) = setMinHeap q ∧
    setMaxHeap (setMaxHeap q) = setMaxHeap q ∧
    (drain (setMinHeap (setMinHeap q))).1 = (drain (setMinHeap q)).1 ∧
    (drain (setMaxHeap (setMaxHeap q))).1 = (drain (setMaxHeap q)).1 := by
  have hmin : setMinHeap (setMinHeap q) = setMinHeap q := by
    rw [setMinHeap, if_pos (mode_setMinHeap q)]
  have hmax : setMaxHeap (setMaxHeap q) = setMaxHeap q := by
    rw [setMaxHeap, if_pos (mode_setMaxHeap q)]
  refine ⟨?_, ?_, hmin, hmax, by rw [hmin], by rw [hmax]⟩
  · rw [setMinHeap, if_pos rfl]
  · rw [setMaxHeap, if_pos rfl]

/-- C6: on an empty queue, `dequeue()` and `peek()` return the empty signal
(`none`) and leave the state untouched, `drain()` yields the empty sequence
and leaves the queue empty, and `size` is 0. -/
theorem C6_empty_queue_ops {T : Type} (q : PriorityQueue T) (h : q.heap = []) :
    dequeue q = (none, q) ∧ peek q = none ∧ drain q = ([], q) ∧
      size q = 0 ∧ isEmpty q = true := by
  obtain ⟨heap0, mode0⟩ := q
  cases h
  refine ⟨rfl, rfl, ?_, rfl, rfl⟩
  rw [drain]
  simp

theorem C6_empty_queue_ops_witness :
    dequeue ({ heap := [], mode := HeapMode.minHeap } : PriorityQueue Int)
        = (none, { heap := [], mode := HeapMode.minHeap }) ∧
    peek ({ heap := [], mode := HeapMode.minHeap } : PriorityQueue Int) = none ∧
    drain ({ heap := [], mode := HeapMode.minHeap } : PriorityQueue Int)
        = ([], { heap := [], mode := HeapMode.minHeap }) ∧
    size ({ heap := [], mode := HeapMode.minHeap } : PriorityQueue Int) = 0 ∧
    isEmpty ({ heap := [], mode := HeapMode.minHeap } : PriorityQueue Int) = true :=
  C6_empty_queue_ops { heap := [], mode := HeapMode.minHeap } rfl

/-- C7: the sift-down of `dequeue()` does NOT stop only when no existing
child is strictly better than the sifted entry.  In the dequeue after
enqueueing priorities `0, 1, 2, 3, 4` (min mode), the popped entry `(4, 4)`
is sifted from the root of `[4, 1, 2, 3]` and the loop stops at index 1
(`bubbleDownRest` = 1, final array `[1, 4, 2, 3]` by priority), even though
the child at index `2*1+1 = 3` exists and compares strictly less than the
sifted entry (`3 < 4`): the loop compared that child against the stale
promoted value `1` at the hole instead of the entry being sifted. -/
theorem C7_bubbleDown_stop_condition_failing :
    ((dequeue (enqueueAll (PriorityQueue.new Int true)
        [(0, 0), (1, 1), (2, 2), (3, 3), (4, 4)])).2).heap
      = [⟨1, 1⟩, ⟨4, 4⟩, ⟨2, 2⟩, ⟨3, 3⟩] ∧
    bubbleDownGo HeapMode.minHeap [⟨4, 4⟩, ⟨1, 1⟩, ⟨2, 2⟩, ⟨3, 3⟩] (⟨4, 4⟩ : QueueElement Int) 0
      = [⟨1, 1⟩, ⟨4, 4⟩, ⟨2, 2⟩, ⟨3, 3⟩] ∧
    bubbleDownRest HeapMode.minHeap [⟨4, 4⟩, ⟨1, 1⟩, ⟨2, 2⟩, ⟨3, 3⟩] (⟨4, 4⟩ : QueueElement Int) 0
      = 1 ∧
    2 * 1 + 1 < ([⟨1, 1⟩, ⟨4, 4⟩, ⟨2, 2⟩, ⟨3, 3⟩] : List (QueueElement Int)).length ∧
    compareFn HeapMode.minHeap
      (([⟨1, 1⟩, ⟨4, 4⟩, ⟨2, 2⟩, ⟨3, 3⟩] : List (QueueElement Int)).getD (2 * 1 + 1) ⟨0, 0⟩)
      ⟨4, 4⟩ < 0 := by
  have h2 : bubbleDownGo HeapMode.minHeap
      [⟨4, 4⟩, ⟨1, 1⟩, ⟨2, 2⟩, ⟨3, 3⟩] (⟨4, 4⟩ : QueueElement Int) 0
      = bubbleDownGoF HeapMode.minHeap 4
        [⟨4, 4⟩, ⟨1, 1⟩, ⟨2, 2⟩, ⟨3, 3⟩] (⟨4, 4⟩ : QueueElement Int) 0 :=
    (bubbleDownGoF_eq HeapMode.minHeap 4 _ _ 0 (by decide)).symm
  have h3 : bubbleDownRest HeapMode.minHeap
      [⟨4, 4⟩, ⟨1, 1⟩, ⟨2, 2⟩, ⟨3, 3⟩] (⟨4, 4⟩ : QueueElement Int) 0
      = bubbleDownRestF HeapMode.minHeap 4
        [⟨4, 4⟩, ⟨1, 1⟩, ⟨2, 2⟩, ⟨3, 3⟩] (⟨4, 4⟩ : QueueElement Int) 0 :=
    (bubbleDownRestF_eq HeapMode.minHeap 4 _ _ 0 (by decide)).symm
  rw [h2, h3]
  simp only [← enqueueAllF_eq, ← dequeueF_eq]
  decide

/-- C8: snapshot iteration runs entirely on a fresh copy — in the model it is
a pure function of the queue state, so the original is untouched and every
fresh start yields the same full sequence — but the values do NOT come out in
priority order: after enqueueing `(i, i)` for `i = 1, 2, 4, 3, 5, 6` (min
mode), iteration yields `[1, 2, 4, 3, 5, 6]` (`4` before `3`), while the
original queue still holds all six entries. -/
theorem C8_iterator_order_failing :
    iterValues (enqueueAll (PriorityQueue.new Int true)
        [(1, 1), (2, 2), (4, 4), (3, 3), (5, 5), (6, 6)]) = [1, 2, 4, 3, 5, 6] ∧
    nondecreasing (iterValues (enqueueAll (PriorityQueue.new Int true)
        [(1, 1), (2, 2), (4, 4), (3, 3), (5, 5), (6, 6)])) = false ∧
    (enqueueAll (PriorityQueue.new Int true)
        [(1, 1), (2, 2), (4, 4), (3, 3), (5, 5), (6, 6)]).heap.map (fun e => e.priority)
      = [1, 2, 4, 3, 5, 6] ∧
    size (enqueueAll (PriorityQueue.new Int true)
        [(1, 1), (2, 2), (4, 4), (3, 3), (5, 5), (6, 6)]) = 6 := by
  simp only [← enqueueAllF_eq, ← iterValuesF_eq]
  decide

/-- C9: `setMinHeap()` and `setMaxHeap()` — including when a full reheapify
runs — only permute the backing array: the multiset of `(value, priority)`
entries is preserved (stated as a list permutation) and the size is
unchanged. -/
theorem C9_setters_preserve_entries {T : Type} (q : PriorityQueue T) :
    List.Perm (setMinHeap q).heap q.heap ∧ List.Perm (setMaxHeap q).heap q.heap ∧
      size (setMinHeap q) = size q ∧ size (setMaxHeap q) = size q :=
  ⟨setMinHeap_heap_perm q, setMaxHeap_heap_perm q,
    (setMinHeap_heap_perm q).length_eq, (setMaxHeap_heap_perm q).length_eq⟩

/-- C10: every backing-array access of the public operations is in bounds on
every queue state: the bounds-checked instrumented operations (which fail on
any out-of-range read or write, and whose loop fuel fails if a sift
overruns its measure) succeed and agree with the real ones, for all states
including sizes 0 and 1. -/
theorem C10_no_out_of_bounds_access {T : Type} (q : PriorityQueue T) (value : T)
    (priority : Int) :
    enqueueC q value priority = some (enqueue q value priority) ∧
      dequeueC q = some (dequeue q) ∧
      setMinHeapC q = some (setMinHeap q) ∧
      setMaxHeapC q = some (setMaxHeap q) :=
  ⟨enqueueC_eq q value priority, dequeueC_eq q, setMinHeapC_eq q, setMaxHeapC_eq q⟩

end PQModel
